import Mathlib

/-!
# eth_parser: hex codec, subscription store and chain query facade

A shallow embedding of `internal/utils/utils.go`,
`internal/app/repo/memory_transaction_repo.go` and
`internal/app/parser/ethereum_parser.go`.

Conventions of the embedding.

* A Go `string` is a Lean `String`, i.e. a sequence of Unicode characters
  (Go strings that are not valid UTF-8 are outside the model).
* `int64`/`uint64` values are `Int`/`Nat` with explicit wrap-around where the
  Go code can overflow.
* Go's `(value, error)` results are `Except`; callers in the source always
  test the error first and never use the value that comes with an error.
* Library routines the source calls (`strconv.ParseInt`, `strings.ToLower`,
  `strings.TrimPrefix`, `fmt.Sprintf("%064s")`, `encoding/json`) are modelled
  as far as the source exercises them; each model says what it covers.
-/

namespace EthParser

/-! ## strconv.ParseInt(s, 16, 64) -/

/-- The two kinds of `*strconv.NumError` that `ParseInt` produces. -/
inductive NumError where
  | syntaxErr
  | rangeErr
  deriving DecidableEq, Repr

/-- Embeds `lower(c)` of strconv: `c | ('x' - 'X')` on a byte. -/
def byteLower (c : Nat) : Nat := c ||| 0x20

/-- The digit branch of the loop of `strconv.ParseUint`, for a byte `c`:
`'0'..'9'` give `c - '0'`, a byte whose `lower` lies in `'a'..'z'` gives
`lower(c) - 'a' + 10`, anything else is a syntax error (`none`). The later
test `d >= base` is applied by the caller. -/
def digitOfByte (c : Nat) : Option Nat :=
  if 48 ≤ c ∧ c ≤ 57 then some (c - 48)
  else if 97 ≤ byteLower c ∧ byteLower c ≤ 122 then some (byteLower c - 97 + 10)
  else none

/-- Digit value of a character of the input. `ParseUint` ranges over the bytes
of the string; every byte of a non-ASCII character is `≥ 0x80` and falls in
the default (syntax error) branch, so such a character yields `none`. -/
def digitOfChar (c : Char) : Option Nat :=
  if c.toNat < 128 then digitOfByte c.toNat else none

/-- Embeds `maxUint64/16 + 1`: the smallest `n` such that `n * 16` overflows. -/
def uintCutoff16 : Nat := (2 ^ 64 - 1) / 16 + 1

/-- Embeds `maxVal` of `ParseUint` for `bitSize = 64`. -/
def maxUint64 : Nat := 2 ^ 64 - 1

/-- The loop of `strconv.ParseUint(s, 16, 64)` over the remaining characters,
with accumulator `n` (a `uint64`). -/
def parseUintLoop : List Char → Nat → Except NumError Nat
  | [], n => .ok n
  | c :: cs, n =>
    match digitOfChar c with
    | none => .error .syntaxErr
    | some d =>
      if d ≥ 16 then .error .syntaxErr
      else if n ≥ uintCutoff16 then .error .rangeErr
      else
        let n16 := (n * 16) % 2 ^ 64
        let n1 := (n16 + d) % 2 ^ 64
        if n1 < n16 ∨ n1 > maxUint64 then .error .rangeErr
        else parseUintLoop cs n1

/-- Embeds `strconv.ParseUint(s, 16, 64)`. -/
def ParseUint16 (s : List Char) : Except NumError Nat :=
  match s with
  | [] => .error .syntaxErr
  | _ => parseUintLoop s 0

/-- Conversion `int64(x)` of an integer: wrap into `[-2^63, 2^63)`. -/
def toInt64 (x : Int) : Int := (x + 2 ^ 63) % 2 ^ 64 - 2 ^ 63

/-- Embeds `strconv.ParseInt(s, 16, 64)`: an optional sign, then `ParseUint`, then the
range check against `cutoff = 1 << 63`. A range error of `ParseUint` comes
with `un = maxVal` and is turned into a range error by the cutoff tests. -/
def ParseInt16 (s : List Char) : Except NumError Int :=
  match s with
  | [] => .error .syntaxErr
  | c :: rest =>
    let neg := decide (c = '-')
    let body := if c = '+' then rest else if c = '-' then rest else c :: rest
    match ParseUint16 body with
    | .error .syntaxErr => .error .syntaxErr
    | .error .rangeErr => .error .rangeErr
    | .ok un =>
      let cutoff : Nat := 2 ^ 63
      if !neg ∧ un ≥ cutoff then .error .rangeErr
      else if neg ∧ un > cutoff then .error .rangeErr
      else
        let n := toInt64 (un : Int)
        .ok (if neg then toInt64 (-n) else n)

/-! ## internal/utils/utils.go -/

/-- The prefix test of `HexToInt`: `len(hexStr) > 2 && hexStr[:2] == "0x"`
strips the two characters. A string that starts with `0x` has more than two
bytes exactly when a further character follows. -/
def stripHexPrefix : List Char → List Char
  | '0' :: 'x' :: c :: rest => c :: rest
  | cs => cs

/-- Embeds `utils.HexToInt`. -/
def HexToInt (hexStr : String) : Except NumError Int :=
  ParseInt16 (stripHexPrefix hexStr.data)

/-- Embeds `strings.TrimPrefix(s, "0x")`. -/
def trimPrefix0x : List Char → List Char
  | '0' :: 'x' :: rest => rest
  | cs => cs

/-- Lower-casing of one character by `strings.ToLower`: ASCII `A-Z` go to
`a-z`, other ASCII characters stay; a non-ASCII character is mapped by
Go's Unicode table, the parameter `unicodeLower`. -/
def lowerChar (unicodeLower : Char → Char) (c : Char) : Char :=
  if c.toNat < 128 then
    (if 65 ≤ c.toNat ∧ c.toNat ≤ 90 then Char.ofNat (c.toNat + 32) else c)
  else unicodeLower c

/-- Embeds `fmt.Sprintf("%064s", s)`: left padding with `'0'` up to 64 characters
(the width counts runes); a longer string is left as it is. -/
def sprintf064s (s : List Char) : List Char :=
  List.replicate (64 - s.length) '0' ++ s

/-- Embeds `utils.AddressToHex`. -/
def AddressToHex (unicodeLower : Char → Char) (address : String) : String :=
  let address := (trimPrefix0x address.data).map (lowerChar unicodeLower)
  String.mk ('0' :: 'x' :: sprintf064s address)

/-! ## encoding/json, as far as the source uses it -/

/-- The two Unicode tables of the Go runtime that the model takes as given:
`lower` is `unicode.ToLower` and `fold` is the `foldRune` of `encoding/json`
(the smallest rune of the simple-fold orbit). Both are consulted for
non-ASCII characters only. -/
structure GoUnicode where
  lower : Char → Char
  fold : Char → Char

/-- A JSON value. A number literal that is an integer literal is `int`; any
other number literal (fraction or exponent) is `float` with its text. Members
of an object are kept in document order, repeated names included. -/
inductive JVal where
  | null
  | bool (b : Bool)
  | int (n : Int)
  | float (lit : String)
  | str (s : String)
  | arr (items : List JVal)
  | obj (members : List (String × JVal))

/-- A response body (`[]byte`) by what `encoding/json` makes of it: no bytes
at all, bytes that are not one JSON text, or the text of a JSON value. -/
inductive Body where
  | empty
  | invalid
  | json (v : JVal)

/-- Errors of `json.Unmarshal`: a `SyntaxError` or an `UnmarshalTypeError`. -/
inductive JsonError where
  | syntaxErr
  | typeErr
  deriving DecidableEq, Repr

/-- Folding of one character of a member name by `encoding/json`: ASCII
`a-z` go to upper case, a non-ASCII character goes through the fold table. -/
def foldChar (u : GoUnicode) (c : Char) : Char :=
  if c.toNat < 128 then
    (if 97 ≤ c.toNat ∧ c.toNat ≤ 122 then Char.ofNat (c.toNat - 32) else c)
  else u.fold c

/-- Embeds `foldName` of `encoding/json`. -/
def foldName (u : GoUnicode) (s : String) : List Char := s.data.map (foldChar u)

/-- Position of the first name satisfying `p`. -/
def firstIndex (p : String → Bool) : List String → Option Nat
  | [] => none
  | n :: ns => if p n then some 0 else (firstIndex p ns).map (· + 1)

/-- Field selection for a member name: the field whose JSON name equals the
key, otherwise the first field whose folded name equals the folded key.
The result is the position of the field in `names`. -/
def findField (u : GoUnicode) (names : List String) (key : String) : Option Nat :=
  match firstIndex (fun n => n == key) names with
  | some i => some i
  | none => firstIndex (fun n => foldName u n == foldName u key) names

/-- Decoding a JSON value into a `string` variable holding `cur`: `null`
leaves it, a JSON string replaces it, anything else is a type error. -/
def setString (cur : String) : JVal → Except JsonError String
  | .null => .ok cur
  | .str s => .ok s
  | _ => .error .typeErr

/-- Decoding a JSON value into a `*string`: `null` sets nil. -/
def setStringPtr (_cur : Option String) : JVal → Except JsonError (Option String)
  | .null => .ok none
  | .str s => .ok (some s)
  | _ => .error .typeErr

/-- Decoding a JSON value into an `int64` (or a 64-bit `int`): an integer
literal in range is stored, `null` leaves the variable. -/
def setInt64 (cur : Int) : JVal → Except JsonError Int
  | .null => .ok cur
  | .int n => if -(2 ^ 63) ≤ n ∧ n < 2 ^ 63 then .ok n else .error .typeErr
  | _ => .error .typeErr

/-- The members of an object are decoded in document order, each into the
field it selects; an unknown name is skipped inside `setField`. The Go
decoder records the first type error and goes on; every caller in the source
discards the target when an error is returned, so stopping at the first error
gives the same outcome. -/
def decodeMembers {α : Type} (setField : α → String → JVal → Except JsonError α) :
    List (String × JVal) → α → Except JsonError α
  | [], a => .ok a
  | (k, v) :: ms, a =>
    match setField a k v with
    | .error e => .error e
    | .ok a1 => decodeMembers setField ms a1

/-- Decoding a JSON value into a struct holding `cur`: `null` leaves it, an
object is decoded member by member, anything else is a type error. -/
def decodeStruct {α : Type} (setField : α → String → JVal → Except JsonError α)
    (cur : α) : JVal → Except JsonError α
  | .null => .ok cur
  | .obj ms => decodeMembers setField ms cur
  | _ => .error .typeErr

/-- Embeds `json.Unmarshal(body, &target)` for a target decoded by `dec`. -/
def unmarshal {α : Type} (dec : JVal → Except JsonError α) : Body → Except JsonError α
  | .empty => .error .syntaxErr
  | .invalid => .error .syntaxErr
  | .json v => dec v

/-! ## internal/domain/entity/transaction.go -/

/-- Embeds `entity.Transaction`. -/
structure Transaction where
  BlockHash : Option String
  BlockNumber : Option String
  TransactionIndex : Option String
  Hash : String
  From : String
  To : Option String
  Gas : String
  GasPrice : String
  Input : String
  Nonce : String
  Value : String
  V : String
  R : String
  S : String
  deriving DecidableEq, Repr

/-- The zero value of `entity.Transaction`. -/
def Transaction.zero : Transaction :=
  { BlockHash := none, BlockNumber := none, TransactionIndex := none, Hash := "",
    From := "", To := none, Gas := "", GasPrice := "", Input := "", Nonce := "",
    Value := "", V := "", R := "", S := "" }

/-- JSON names of the fields of `Transaction` that are not tagged `json:"-"`,
in declaration order. -/
def transactionFields : List String :=
  ["transactionIndex", "hash", "from", "to", "gas", "gasPrice", "value"]

/-- Decoding one member into a `Transaction`. -/
def Transaction.setField (u : GoUnicode) (t : Transaction) (key : String) (v : JVal) :
    Except JsonError Transaction :=
  match findField u transactionFields key with
  | some 0 => (setStringPtr t.TransactionIndex v).map (fun x => { t with TransactionIndex := x })
  | some 1 => (setString t.Hash v).map (fun x => { t with Hash := x })
  | some 2 => (setString t.From v).map (fun x => { t with From := x })
  | some 3 => (setStringPtr t.To v).map (fun x => { t with To := x })
  | some 4 => (setString t.Gas v).map (fun x => { t with Gas := x })
  | some 5 => (setString t.GasPrice v).map (fun x => { t with GasPrice := x })
  | some 6 => (setString t.Value v).map (fun x => { t with Value := x })
  | _ => .ok t

/-- Embeds `json.Unmarshal(body, &tx)` for a fresh `var tx entity.Transaction`. -/
def unmarshalTransaction (u : GoUnicode) (body : Body) : Except JsonError Transaction :=
  unmarshal (decodeStruct (Transaction.setField u) Transaction.zero) body

/-! ## internal/app/repo/memory_transaction_repo.go -/

/-- Embeds `MemorySubscriptionRepo`: the Go `map[string]bool` is kept as the list of
its entries; the mutex has no counterpart in the sequential model. -/
structure MemorySubscriptionRepo where
  subscriptions : List (String × Bool)
  deriving DecidableEq, Repr

/-- Embeds `NewMemoryTransactionRepo`. -/
def NewMemoryTransactionRepo : MemorySubscriptionRepo := { subscriptions := [] }

/-- Map assignment `m[k] = v`: the entry of `k` is overwritten when there is
one, otherwise a new entry is added. -/
def mapAssign (k : String) (v : Bool) : List (String × Bool) → List (String × Bool)
  | [] => [(k, v)]
  | (k1, v1) :: rest => if k1 = k then (k, v) :: rest else (k1, v1) :: mapAssign k v rest

/-- The `ok` of a map read `_, ok := m[k]`. -/
def mapHasKey (k : String) : List (String × Bool) → Bool
  | [] => false
  | (k1, _) :: rest => if k1 = k then true else mapHasKey k rest

/-- Embeds `MemorySubscriptionRepo.StoreSubscription`; the returned error is always nil. -/
def StoreSubscription (r : MemorySubscriptionRepo) (address : String) : MemorySubscriptionRepo :=
  { subscriptions := mapAssign address true r.subscriptions }

/-- Embeds `MemorySubscriptionRepo.IsSubscribed`. -/
def IsSubscribed (r : MemorySubscriptionRepo) (address : String) : Bool :=
  mapHasKey address r.subscriptions

/-! ## internal/app/parser/ethereum_parser.go -/

def rpcVersion : String := "2.0"
def erc20Transfer : String := "0xddf252ad1be2c89b69c2b068fc378daa952ba7f163c4a11628f55a4df523b3ef"
def methodBlockNum : String := "eth_blockNumber"
def methodChainID : String := "eth_chainId"
def methodLogs : String := "eth_getLogs"
def methodTxByHash : String := "eth_getTransactionByHash"

/-- One position of the `topics` list of a log filter: a single topic, or a
nested list of alternatives. -/
inductive TopicSpec where
  | one (topic : String)
  | anyOf (topics : List String)
  deriving DecidableEq, Repr

/-- An element of the `Params []any` of a request, for the two shapes the
source builds: a string, and the filter map with its three keys. -/
inductive Param where
  | str (s : String)
  | filter (fromBlock : String) (toBlock : String) (topics : List TopicSpec)
  deriving DecidableEq, Repr

/-- Embeds `rpcRequest`. A nil `Params` is the empty list. -/
structure rpcRequest where
  JSONRPC : String
  Method : String
  Params : List Param
  ID : Int
  deriving DecidableEq, Repr

/-- Embeds `rpcError`. -/
structure rpcError where
  Code : Int
  Message : String
  deriving DecidableEq, Repr

/-- Embeds `rpcResponse`. `Result` is a `json.RawMessage`: `none` is the nil slice,
`some v` the text of the JSON value `v`. -/
structure rpcResponse where
  ID : Int
  JSONRPC : String
  Result : Option JVal
  Error : Option rpcError

/-- Embeds `logEntry`. -/
structure logEntry where
  Address : String
  BlockHash : String
  BlockNumber : String
  TransactionHash : String
  deriving DecidableEq, Repr

/-- Embeds `logsResponse`. -/
structure logsResponse where
  Logs : List logEntry
  deriving DecidableEq, Repr

def rpcError.zero : rpcError := { Code := 0, Message := "" }

def rpcResponse.zero : rpcResponse := { ID := 0, JSONRPC := "", Result := none, Error := none }

def logEntry.zero : logEntry :=
  { Address := "", BlockHash := "", BlockNumber := "", TransactionHash := "" }

/-- Decoding one member into an `rpcError`. -/
def rpcError.setField (u : GoUnicode) (e : rpcError) (key : String) (v : JVal) :
    Except JsonError rpcError :=
  match findField u ["code", "message"] key with
  | some 0 => (setInt64 e.Code v).map (fun x => { e with Code := x })
  | some 1 => (setString e.Message v).map (fun x => { e with Message := x })
  | _ => .ok e

/-- Decoding a JSON value into the `*rpcError` field: `null` sets nil, an
object is decoded into the pointee (a fresh one when the pointer is nil). -/
def setRpcErrorPtr (u : GoUnicode) (cur : Option rpcError) : JVal → Except JsonError (Option rpcError)
  | .null => .ok none
  | .obj ms => (decodeMembers (rpcError.setField u) ms (cur.getD rpcError.zero)).map some
  | _ => .error .typeErr

/-- Decoding one member into an `rpcResponse`. The `RawMessage` field takes
the text of any value, `null` included. -/
def rpcResponse.setField (u : GoUnicode) (r : rpcResponse) (key : String) (v : JVal) :
    Except JsonError rpcResponse :=
  match findField u ["id", "jsonrpc", "result", "error"] key with
  | some 0 => (setInt64 r.ID v).map (fun x => { r with ID := x })
  | some 1 => (setString r.JSONRPC v).map (fun x => { r with JSONRPC := x })
  | some 2 => .ok { r with Result := some v }
  | some 3 => (setRpcErrorPtr u r.Error v).map (fun x => { r with Error := x })
  | _ => .ok r

/-- Embeds `json.Unmarshal(body, &response)` for a fresh `var response rpcResponse`. -/
def unmarshalRpcResponse (u : GoUnicode) (body : Body) : Except JsonError rpcResponse :=
  unmarshal (decodeStruct (rpcResponse.setField u) rpcResponse.zero) body

/-- Embeds `json.Unmarshal(response.Result, &hex)` for a fresh `var hex string`: a nil
`RawMessage` is an unexpected end of input. -/
def unmarshalString : Option JVal → Except JsonError String
  | none => .error .syntaxErr
  | some v => setString "" v

/-- Decoding one member into a `logEntry`. -/
def logEntry.setField (u : GoUnicode) (e : logEntry) (key : String) (v : JVal) :
    Except JsonError logEntry :=
  match findField u ["address", "blockHash", "blockNumber", "transactionHash"] key with
  | some 0 => (setString e.Address v).map (fun x => { e with Address := x })
  | some 1 => (setString e.BlockHash v).map (fun x => { e with BlockHash := x })
  | some 2 => (setString e.BlockNumber v).map (fun x => { e with BlockNumber := x })
  | some 3 => (setString e.TransactionHash v).map (fun x => { e with TransactionHash := x })
  | _ => .ok e

/-- A `[]logEntry` while `encoding/json` decodes into it: the elements of the
slice, and the elements of its backing store past its length that were in the
slice before it was truncated. Past those the backing store holds zero
elements only: it grows exactly when the length has reached the capacity, so
growing copies every element and adds zero ones. -/
structure logSlice where
  elems : List logEntry
  stale : List logEntry
  deriving DecidableEq, Repr

/-- Decoding the elements of a JSON array over the backing store `store` of
the slice: element `i` of the array is decoded into element `i` of the store
(an element of the slice, or one that `SetLen` exposes again), and into a
zero element beyond the store. The result has one element per array
element. -/
def decodeLogEntries (u : GoUnicode) : List JVal → List logEntry → Except JsonError (List logEntry)
  | [], _ => .ok []
  | v :: vs, store =>
    match decodeStruct (logEntry.setField u) (store.headD logEntry.zero) v with
    | .error e => .error e
    | .ok entry =>
      match decodeLogEntries u vs store.tail with
      | .error e => .error e
      | .ok rest => .ok (entry :: rest)

/-- Decoding a JSON value into the `[]logEntry` field. `null` sets the nil
slice; an empty array sets a fresh empty slice; a non-empty array of `n`
elements is decoded over the backing store, the slice gets length `n`, and
what the store holds past `n` stays behind it. -/
def setLogEntries (u : GoUnicode) (cur : logSlice) : JVal → Except JsonError logSlice
  | .null => .ok { elems := [], stale := [] }
  | .arr items =>
    match items with
    | [] => .ok { elems := [], stale := [] }
    | _ :: _ =>
      match decodeLogEntries u items (cur.elems ++ cur.stale) with
      | .error e => .error e
      | .ok es => .ok { elems := es, stale := (cur.elems ++ cur.stale).drop items.length }
  | _ => .error .typeErr

/-- Decoding one member into a `logsResponse`, whose only field is the slice
`Logs`. -/
def logsResponse.setField (u : GoUnicode) (r : logSlice) (key : String) (v : JVal) :
    Except JsonError logSlice :=
  match findField u ["result"] key with
  | some 0 => setLogEntries u r v
  | _ => .ok r

/-- Embeds `json.Unmarshal(logsRaw, &logs)` for a fresh `var logs logsResponse`:
the slice starts nil; the caller ranges over the elements of the decoded
slice and never sees its backing store. -/
def unmarshalLogsResponse (u : GoUnicode) (body : Body) : Except JsonError logsResponse :=
  match unmarshal (decodeStruct (logsResponse.setField u) { elems := [], stale := [] }) body with
  | .error e => .error e
  | .ok slice => .ok { Logs := slice.elems }

/-- The injected `HTTPClient`, seen through `sendRPCRequest`: given the
requests issued before and the present one, it yields the response body, or
`none` when `Do` or the reading of the body fails. -/
abbrev HTTPClient := List rpcRequest → rpcRequest → Option Body

/-- What an operation of the parser can change or observe: the subscription
store, and the requests issued on the transport so far (oldest first). -/
structure ParserState where
  repo : MemorySubscriptionRepo
  sent : List rpcRequest
  deriving DecidableEq, Repr

/-- The failures of the private query functions. -/
inductive QueryError where
  | transport
  | unmarshal (e : JsonError)
  | rpcFailed (message : String)
  | emptyResponse
  | parse (e : NumError)
  deriving DecidableEq, Repr

/-- Embeds `EthereumParser.sendRPCRequest`: marshalling the request and building the
HTTP request cannot fail for the parameters the source passes. -/
def sendRPCRequest (client : HTTPClient) (st : ParserState) (method : String) (id : Int)
    (params : List Param) : Option Body × ParserState :=
  let rpcReq : rpcRequest := { JSONRPC := rpcVersion, Method := method, Params := params, ID := id }
  (client st.sent rpcReq, { st with sent := st.sent ++ [rpcReq] })

/-- Embeds `EthereumParser.getChainID`. -/
def getChainID (u : GoUnicode) (client : HTTPClient) (st : ParserState) :
    Except QueryError Int × ParserState :=
  match sendRPCRequest client st methodChainID 1 [] with
  | (none, st1) => (.error .transport, st1)
  | (some chainIDResp, st1) =>
    match unmarshalRpcResponse u chainIDResp with
    | .error e => (.error (.unmarshal e), st1)
    | .ok response =>
      match response.Error with
      | some err => (.error (.rpcFailed err.Message), st1)
      | none =>
        match chainIDResp with
        | .empty => (.error .emptyResponse, st1)
        | _ =>
          match unmarshalString response.Result with
          | .error e => (.error (.unmarshal e), st1)
          | .ok hex =>
            match HexToInt hex with
            | .error e => (.error (.parse e), st1)
            | .ok id => (.ok id, st1)

/-- Embeds `EthereumParser.GetCurrentBlock`; the conversion `int(blockNum)` is
taken on a 64-bit target, where `int` has the range of `int64`. -/
def GetCurrentBlock (u : GoUnicode) (client : HTTPClient) (st : ParserState) : Int × ParserState :=
  match getChainID u client st with
  | (.error _, st1) => (0, st1)
  | (.ok chainID, st1) =>
    match sendRPCRequest client st1 methodBlockNum chainID [] with
    | (none, st2) => (0, st2)
    | (some blockNumResp, st2) =>
      match unmarshalRpcResponse u blockNumResp with
      | .error _ => (0, st2)
      | .ok response =>
        match response.Error with
        | some _ => (0, st2)
        | none =>
          match unmarshalString response.Result with
          | .error _ => (0, st2)
          | .ok hex =>
            match HexToInt hex with
            | .error _ => (0, st2)
            | .ok blockNum => (toInt64 blockNum, st2)

/-- Embeds `EthereumParser.Subscribe`. -/
def Subscribe (st : ParserState) (address : String) : Bool × ParserState :=
  if !IsSubscribed st.repo address then
    (true, { st with repo := StoreSubscription st.repo address })
  else
    (true, st)

/-- Embeds `EthereumParser.getTransaction`. -/
def getTransaction (u : GoUnicode) (client : HTTPClient) (st : ParserState) (chainID : Int)
    (hash : String) : Except QueryError Transaction × ParserState :=
  match sendRPCRequest client st methodTxByHash chainID [Param.str hash] with
  | (none, st1) => (.error .transport, st1)
  | (some transactionRaw, st1) =>
    match unmarshalTransaction u transactionRaw with
    | .error e => (.error (.unmarshal e), st1)
    | .ok tx => (.ok tx, st1)

/-- Embeds `EthereumParser.fetchLogs`. -/
def fetchLogs (u : GoUnicode) (client : HTTPClient) (st : ParserState) (chainID : Int)
    (params : List Param) : Except QueryError (List logEntry) × ParserState :=
  match sendRPCRequest client st methodLogs chainID params with
  | (none, st1) => (.error .transport, st1)
  | (some logsRaw, st1) =>
    match unmarshalLogsResponse u logsRaw with
    | .error e => (.error (.unmarshal e), st1)
    | .ok logs => (.ok logs.Logs, st1)

/-- The `params` that `GetTransactions` builds for `eth_getLogs`. -/
def logsParams (u : GoUnicode) (address : String) : List Param :=
  [Param.filter "0x0" "latest"
    [TopicSpec.one erc20Transfer,
     TopicSpec.anyOf [AddressToHex u.lower address, AddressToHex u.lower address]]]

/-- The `for _, logEntry := range logs` loop of `GetTransactions`, with the
slice `transactions` collected so far. -/
def collectTransactions (u : GoUnicode) (client : HTTPClient) (chainID : Int) :
    List logEntry → ParserState → List Transaction → List Transaction × ParserState
  | [], st, transactions => (transactions, st)
  | entry :: rest, st, transactions =>
    match getTransaction u client st chainID entry.TransactionHash with
    | (.error _, st1) => collectTransactions u client chainID rest st1 transactions
    | (.ok tx, st1) => collectTransactions u client chainID rest st1 (transactions ++ [tx])

/-- Embeds `EthereumParser.GetTransactions`. The error of `fetchLogs` is dropped by
the source; `logs` is nil in that case. A nil and an empty result slice are
both the empty list. -/
def GetTransactions (u : GoUnicode) (client : HTTPClient) (st : ParserState) (address : String) :
    List Transaction × ParserState :=
  if !IsSubscribed st.repo address then
    ([], st)
  else
    match getChainID u client st with
    | (.error _, st1) => ([], st1)
    | (.ok chainID, st1) =>
      let params := logsParams u address
      let (logsResult, st2) := fetchLogs u client st1 chainID params
      let logs :=
        match logsResult with
        | .ok logs => logs
        | .error _ => []
      collectTransactions u client chainID logs st2 []

/-! ## The eth_getLogs topic rule -/

/-- One filter position against one log topic: a single topic must be equal,
a nested list matches when one of its alternatives is equal. -/
def topicSpecMatches : TopicSpec → String → Bool
  | .one t, topic => t == topic
  | .anyOf ts, topic => ts.contains topic

/-- The standard `eth_getLogs` rule as the node applies it: position `i` of
the filter constrains topic `i` of the log, and a log with fewer topics than
the filter has positions does not match. -/
def topicsMatch : List TopicSpec → List String → Bool
  | [], _ => true
  | _ :: _, [] => false
  | f :: fs, t :: ts => topicSpecMatches f t && topicsMatch fs ts

/-- The `topics` of the filter in a parameter list. -/
def filterTopics : List Param → List TopicSpec
  | [Param.filter _ _ topics] => topics
  | _ => []

/-! ## Reference notions for the hex codec claims -/

/-- A byte is one of `0-9`, `a-f`, `A-F`. -/
def isHexByte (n : Nat) : Bool :=
  (48 ≤ n && n ≤ 57) || (97 ≤ n && n ≤ 102) || (65 ≤ n && n ≤ 70)

/-- A character is a hexadecimal digit (`0-9`, `a-f`, `A-F`). -/
def isHexDigit (c : Char) : Bool := isHexByte c.toNat

/-- Reference value of a hexadecimal digit given by its code. -/
def hexByteValue (n : Nat) : Nat :=
  if 48 ≤ n ∧ n ≤ 57 then n - 48
  else if 97 ≤ n ∧ n ≤ 102 then n - 87
  else if 65 ≤ n ∧ n ≤ 70 then n - 55
  else 0

/-- Reference big-endian base-16 parser: the most significant digit first. -/
def refHexValue (h : List Char) : Nat :=
  h.foldl (fun acc c => acc * 16 + hexByteValue c.toNat) 0

/-- What remains of a string after removing an optional leading `0x`, as the
specification words it. -/
def afterOptional0x : List Char → List Char
  | '0' :: 'x' :: rest => rest
  | cs => cs

/-- Removal of one optional leading sign character. -/
def dropSign : List Char → List Char
  | '+' :: rest => rest
  | '-' :: rest => rest
  | cs => cs

/-- The input class of the error claim as written: the remainder after the
optional prefix is empty or holds a character that is not a hex digit. -/
def malformedHex (s : String) : Prop :=
  afterOptional0x s.data = [] ∨ ∃ c ∈ afterOptional0x s.data, isHexDigit c = false

/-- The input class of the error claim once the sign that `ParseInt` accepts
is taken into account. -/
def malformedSignedHex (s : String) : Prop :=
  dropSign (afterOptional0x s.data) = [] ∨
    ∃ c ∈ dropSign (afterOptional0x s.data), isHexDigit c = false

/-! ## Reference notions for the claims on the facade -/

/-- The request that `getChainID` issues. -/
def chainIDRequest : rpcRequest :=
  { JSONRPC := rpcVersion, Method := methodChainID, Params := [], ID := 1 }

/-- The `eth_blockNumber` request with request id `id`. -/
def blockNumRequest (id : Int) : rpcRequest :=
  { JSONRPC := rpcVersion, Method := methodBlockNum, Params := [], ID := id }

/-- A body is an error-free JSON-RPC envelope whose result is the JSON string
`c`: it decodes as an `rpcResponse`, the error is nil and the raw result is
the string `c`. -/
def envelopeWithResult (u : GoUnicode) (body : Body) (c : String) : Prop :=
  ∃ r, unmarshalRpcResponse u body = .ok r ∧ r.Error = none ∧ r.Result = some (JVal.str c)

/-- The raw result of an envelope is a decodable hex string. -/
def decodableHex (raw : Option JVal) : Prop :=
  ∃ hex n, unmarshalString raw = .ok hex ∧ HexToInt hex = .ok n

/-- The ways in which one step of `GetCurrentBlock` fails, by the response to
its request: the transport returns an error; the body is empty; the body is
not valid JSON; the body does not decode as an envelope; the envelope carries
a non-null error; the result is not a decodable hex string. -/
def responseFailed (u : GoUnicode) (resp : Option Body) : Prop :=
  resp = none ∨ resp = some Body.empty ∨ resp = some Body.invalid ∨
  (∃ body e, resp = some body ∧ unmarshalRpcResponse u body = .error e) ∨
  (∃ body r, resp = some body ∧ unmarshalRpcResponse u body = .ok r ∧ r.Error ≠ none) ∨
  (∃ body r, resp = some body ∧ unmarshalRpcResponse u body = .ok r ∧ ¬ decodableHex r.Result)

/-- One of the two steps of `GetCurrentBlock` fails: the response to
`eth_chainId` is a failed one, or the chain id is obtained as `cid` and the
response to the `eth_blockNumber` request carrying that id is a failed one. -/
def currentBlockStepFailed (u : GoUnicode) (client : HTTPClient) (st : ParserState) : Prop :=
  responseFailed u (client st.sent chainIDRequest) ∨
  ∃ bodyC c cid, client st.sent chainIDRequest = some bodyC ∧ envelopeWithResult u bodyC c ∧
    HexToInt c = .ok cid ∧
    responseFailed u (client (st.sent ++ [chainIDRequest]) (blockNumRequest cid))

/-- The store after `Subscribe` has been called for each address in turn. -/
def subscribeAll : List String → ParserState → ParserState
  | [], st => st
  | a :: rest, st => subscribeAll rest (Subscribe st a).2

/-! ## The fixtures of ethereum_parser_test.go -/

/-- The `mockHTTPClient` of the tests without a transport error: the body is
looked up by the method of the request; a method without an entry gets the
nil body. -/
def mockHTTPClient (responses : String → Body) : HTTPClient :=
  fun _ req => some (responses req.Method)

/-- The `chainIDResp` of the tests: an envelope with id 1 and result `0x1`. -/
def testChainIDResp : Body :=
  .json (.obj [("jsonrpc", .str "2.0"), ("id", .int 1), ("result", .str "0x1")])

/-- The `blockNumResp` of the tests: an envelope with id 1 and result `0x100`. -/
def testBlockNumResp : Body :=
  .json (.obj [("jsonrpc", .str "2.0"), ("id", .int 1), ("result", .str "0x100")])

/-- The error response of the tests: an envelope with id 1, no result, and
an error object with code -32000 and message `error`. -/
def testErrorResp : Body :=
  .json (.obj [("jsonrpc", .str "2.0"), ("id", .int 1),
    ("error", .obj [("code", .int (-32000)), ("message", .str "error")])])

/-- The `logsResp` of `TestGetTransactions`: one log entry with transaction
hash `0x1`. -/
def testLogsResp : Body :=
  .json (.obj [("jsonrpc", .str "2.0"), ("id", .int 1),
    ("result", .arr [.obj [("address", .str "0x123"), ("blockHash", .str "0x1"),
      ("blockNumber", .str "0x1"), ("transactionHash", .str "0x1")]])])

/-- The `txResp` of `TestGetTransactions`: an envelope whose result object
carries `hash`, `from` and `to`. -/
def testTxResp : Body :=
  .json (.obj [("jsonrpc", .str "2.0"), ("id", .int 1),
    ("result", .obj [("hash", .str "0x1"), ("from", .str "0x123"), ("to", .str "0x456")])])

/-- The response table of `TestGetCurrentBlock`. -/
def currentBlockResponses (chainIDResp blockNumResp : Body) : String → Body :=
  fun method =>
    if method = methodChainID then chainIDResp
    else if method = methodBlockNum then blockNumResp
    else Body.empty

/-- The response table of `TestGetTransactions`. -/
def transactionsResponses (chainIDResp logsResp txResp : Body) : String → Body :=
  fun method =>
    if method = methodChainID then chainIDResp
    else if method = methodLogs then logsResp
    else if method = methodTxByHash then txResp
    else Body.empty

/-- A fresh parser: empty store, nothing sent. -/
def freshState : ParserState := { repo := NewMemoryTransactionRepo, sent := [] }

/-! ## Reference notions for the per-log transaction fetch -/

/-- The `eth_getLogs` request for `address` with request id `id`. -/
def logsRequest (u : GoUnicode) (id : Int) (address : String) : rpcRequest :=
  { JSONRPC := rpcVersion, Method := methodLogs, Params := logsParams u address, ID := id }

/-- The `eth_getTransactionByHash` request whose sole parameter is `hash`,
with request id `id`. -/
def txByHashRequest (id : Int) (hash : String) : rpcRequest :=
  { JSONRPC := rpcVersion, Method := methodTxByHash, Params := [Param.str hash], ID := id }

/-- The outcome of one fetch, by the response of the transport: a Transaction
when the transport returned a body and the body decodes, nothing when the
transport failed or the body does not decode. -/
def fetchOutcome (u : GoUnicode) : Option Body → Option Transaction
  | none => none
  | some body =>
    match unmarshalTransaction u body with
    | .ok tx => some tx
    | .error _ => none

/-- The outcomes of the fetches for a list of log entries, in log order, when
the requests `sent` were issued before the first of them: the request for an
entry is answered knowing the requests for the entries before it. -/
def fetchOutcomes (u : GoUnicode) (client : HTTPClient) (id : Int) :
    List logEntry → List rpcRequest → List (Option Transaction)
  | [], _ => []
  | entry :: rest, sent =>
    fetchOutcome u (client sent (txByHashRequest id entry.TransactionHash)) ::
      fetchOutcomes u client id rest (sent ++ [txByHashRequest id entry.TransactionHash])

/-- Number of hexadecimal digits of a canonical 32-byte topic. -/
def canonicalTopicDigits : Nat := 64

/-- A client for two log entries: `eth_getTransactionByHash` for hash `0x1`
gets the transaction response of the tests, any other hash gets bytes that
are not JSON; the other methods are answered from the table of the tests. -/
def selectiveClient (logsResp : Body) : HTTPClient :=
  fun _ req =>
    if req.Method = methodTxByHash then
      (if req.Params = [Param.str "0x1"] then some testTxResp else some Body.invalid)
    else some (transactionsResponses testChainIDResp logsResp testTxResp req.Method)

/-- A logs response with two entries, of transaction hashes `0x2` and `0x1`. -/
def twoLogsResp : Body :=
  .json (.obj [("jsonrpc", .str "2.0"), ("id", .int 1),
    ("result", .arr [.obj [("transactionHash", .str "0x2")],
      .obj [("transactionHash", .str "0x1")]])])

/-! ## Valid hex strings -/

/-- A valid hex string: an optional leading `0x`, then at least one character,
all of them hexadecimal digits. -/
def isValidHexString (s : String) : Bool :=
  !(afterOptional0x s.data).isEmpty && (afterOptional0x s.data).all isHexDigit

/-- The value the reference base-16 parser gives to the digits of a hex
string, the optional prefix left out. -/
def hexStringValue (s : String) : Nat := refHexValue (afterOptional0x s.data)

/-- An error-free envelope with id 1 whose result is the valid hex string
`0x8000000000000000`, of value `2^63`. -/
def overflowResp : Body :=
  .json (.obj [("jsonrpc", .str "2.0"), ("id", .int 1), ("result", .str "0x8000000000000000")])

/-- A logs body whose member `result` occurs three times: an array of two
entries (addresses `A` and `B1`, the second with transaction hash `0xb`), an
array of one empty object, and an array of an empty object and an object
with block number `E`. -/
def repeatedResultResp : Body :=
  .json (.obj [
    ("result", .arr [.obj [("address", .str "A")],
      .obj [("address", .str "B1"), ("transactionHash", .str "0xb")]]),
    ("result", .arr [.obj []]),
    ("result", .arr [.obj [], .obj [("blockNumber", .str "E")]])])

/-! ## Lemmas on the hex codec -/

theorem digitOfByte_hex : ∀ n, n < 128 → isHexByte n = true →
    digitOfByte n = some (hexByteValue n) ∧ hexByteValue n < 16 := by
  decide

theorem digitOfByte_nonhex : ∀ n, n < 128 → isHexByte n = false →
    digitOfByte n = none ∨ ∃ d, digitOfByte n = some d ∧ 16 ≤ d := by
  intro n hn hb
  have key : ∀ n, n < 128 → isHexByte n = false →
      (digitOfByte n).all (fun d => decide (16 ≤ d)) = true := by decide
  have h := key n hn hb
  cases hd : digitOfByte n with
  | none => exact Or.inl rfl
  | some d =>
    right
    rw [hd] at h
    exact ⟨d, rfl, by simpa using h⟩

theorem isHexByte_lt : ∀ n, isHexByte n = true → n < 128 := by
  intro n h
  simp only [isHexByte, Bool.or_eq_true, Bool.and_eq_true, decide_eq_true_eq] at h
  omega

theorem digitOfChar_hex (c : Char) (h : isHexDigit c = true) :
    digitOfChar c = some (hexByteValue c.toNat) ∧ hexByteValue c.toNat < 16 := by
  have hlt := isHexByte_lt c.toNat h
  unfold digitOfChar
  rw [if_pos hlt]
  exact digitOfByte_hex _ hlt h

theorem digitOfChar_nonhex (c : Char) (h : isHexDigit c = false) :
    digitOfChar c = none ∨ ∃ d, digitOfChar c = some d ∧ 16 ≤ d := by
  unfold digitOfChar
  by_cases hlt : c.toNat < 128
  · rw [if_pos hlt]
    exact digitOfByte_nonhex _ hlt h
  · rw [if_neg hlt]
    exact Or.inl rfl

theorem refFold_ge (cs : List Char) : ∀ n : Nat,
    n ≤ cs.foldl (fun acc c => acc * 16 + hexByteValue c.toNat) n := by
  induction cs with
  | nil => intro n; exact Nat.le_refl n
  | cons c cs ih =>
    intro n
    simp only [List.foldl_cons]
    exact Nat.le_trans (by omega) (ih (n * 16 + hexByteValue c.toNat))

/-- On hex digits, as long as the reference value stays below `2^63`, the loop
of `ParseUint` computes the reference fold. -/
theorem parseUintLoop_hex (cs : List Char) : ∀ n : Nat,
    (∀ c ∈ cs, isHexDigit c = true) →
    cs.foldl (fun acc c => acc * 16 + hexByteValue c.toNat) n < 2 ^ 63 →
    parseUintLoop cs n = .ok (cs.foldl (fun acc c => acc * 16 + hexByteValue c.toNat) n) := by
  induction cs with
  | nil => intro n _ _; rfl
  | cons c cs ih =>
    intro n hhex hlt
    have hc := digitOfChar_hex c (hhex c (List.mem_cons_self c cs))
    have hrest : ∀ x ∈ cs, isHexDigit x = true := fun x hx => hhex x (List.mem_cons_of_mem c hx)
    simp only [List.foldl_cons] at hlt ⊢
    have hge := refFold_ge cs (n * 16 + hexByteValue c.toNat)
    have hd := hc.2
    have hn : n * 16 + hexByteValue c.toNat < 2 ^ 63 := Nat.lt_of_le_of_lt hge hlt
    have h1 : ¬ (hexByteValue c.toNat ≥ 16) := by omega
    have h2 : ¬ (n ≥ uintCutoff16) := by
      have : uintCutoff16 = 2 ^ 60 := by decide
      rw [this]; omega
    have h3 : (n * 16) % 2 ^ 64 = n * 16 := Nat.mod_eq_of_lt (by omega)
    have h4 : (n * 16 + hexByteValue c.toNat) % 2 ^ 64 = n * 16 + hexByteValue c.toNat :=
      Nat.mod_eq_of_lt (by omega)
    have h5 : ¬ (n * 16 + hexByteValue c.toNat < n * 16 ∨
        n * 16 + hexByteValue c.toNat > maxUint64) := by
      have : maxUint64 = 2 ^ 64 - 1 := rfl
      rw [this]; omega
    unfold parseUintLoop
    rw [hc.1]
    simp only [h1, h2, h3, h4, h5, if_false]
    exact ih _ hrest hlt

theorem isHexDigit_not_sign (c : Char) (h : isHexDigit c = true) : c ≠ '+' ∧ c ≠ '-' ∧ c ≠ 'x' := by
  refine ⟨?_, ?_, ?_⟩ <;> intro hc <;> rw [hc] at h <;> exact absurd h (by decide)

theorem toInt64_of_lt (n : Nat) (h : n < 2 ^ 63) : toInt64 (n : Int) = (n : Int) := by
  unfold toInt64
  omega

theorem ParseInt16_hex (h : List Char) (hne : h ≠ []) (hhex : ∀ c ∈ h, isHexDigit c = true)
    (hval : refHexValue h < 2 ^ 63) : ParseInt16 h = .ok (refHexValue h : Int) := by
  cases h with
  | nil => exact absurd rfl hne
  | cons c rest =>
    have hc := isHexDigit_not_sign c (hhex c (List.mem_cons_self c rest))
    have hloop := parseUintLoop_hex (c :: rest) 0 hhex hval
    have hconv := toInt64_of_lt _ hval
    change parseUintLoop (c :: rest) 0 = .ok (refHexValue (c :: rest)) at hloop
    simp only [ParseInt16, ParseUint16, hc.1, hc.2.1, if_false, decide_False, hloop]
    generalize refHexValue (c :: rest) = v at hval hconv
    split_ifs with h1 h2 h3
    · exact absurd h1.2 (by omega)
    · exact absurd h2.1 (by simp)
    · exact absurd h3 (by simp)
    · rw [hconv]

theorem stripHexPrefix_hex (h : List Char) (hhex : ∀ c ∈ h, isHexDigit c = true) :
    stripHexPrefix h = h := by
  unfold stripHexPrefix
  split
  · rename_i c rest
    have := hhex 'x' (by simp)
    exact absurd this (by decide)
  · rfl

theorem stripHexPrefix_prefixed (h : List Char) (hne : h ≠ []) :
    stripHexPrefix ('0' :: 'x' :: h) = h := by
  cases h with
  | nil => exact absurd rfl hne
  | cons c rest => rfl

/-! ## Claims on the hex codec -/

/-- C3 (as written, refuted): `8000000000000000` is a non-empty string of hex
digits whose reference value is `2^63`, and `HexToInt` fails on it with a
range error, with and without the `0x` prefix. -/
theorem C3_HexToInt_overflow_counterexample :
    "8000000000000000".data ≠ [] ∧
    (∀ c ∈ "8000000000000000".data, isHexDigit c = true) ∧
    refHexValue "8000000000000000".data = 2 ^ 63 ∧
    HexToInt "8000000000000000" = .error .rangeErr ∧
    HexToInt ("0x" ++ "8000000000000000") = .error .rangeErr := by
  refine ⟨by decide, by decide, by decide, rfl, rfl⟩

/-- C3 (amended): for every non-empty string `h` of hexadecimal digits whose
reference value is below `2^63`, `HexToInt h` and `HexToInt ("0x" ++ h)` both
succeed and return the value the reference big-endian base-16 parser gives. -/
theorem C3_HexToInt_matches_reference (h : List Char) (hne : h ≠ [])
    (hhex : ∀ c ∈ h, isHexDigit c = true) (hval : refHexValue h < 2 ^ 63) :
    HexToInt (String.mk h) = .ok (refHexValue h : Int) ∧
    HexToInt ("0x" ++ String.mk h) = .ok (refHexValue h : Int) := by
  constructor
  · show ParseInt16 (stripHexPrefix h) = _
    rw [stripHexPrefix_hex h hhex]
    exact ParseInt16_hex h hne hhex hval
  · show ParseInt16 (stripHexPrefix ('0' :: 'x' :: h)) = _
    rw [stripHexPrefix_prefixed h hne]
    exact ParseInt16_hex h hne hhex hval

/-- Witness of C3 on the inputs of `TestHexToInt`: `1a` and `0x1a` give 26. -/
theorem C3_HexToInt_matches_reference_witness :
    HexToInt "1a" = .ok 26 ∧ HexToInt "0x1a" = .ok 26 :=
  C3_HexToInt_matches_reference ['1', 'a'] (by decide) (by decide) (by decide)

theorem parseUintLoop_nonhex (cs : List Char) : ∀ n : Nat,
    (∃ c ∈ cs, isHexDigit c = false) → ∃ e, parseUintLoop cs n = .error e := by
  induction cs with
  | nil => intro n ⟨c, hc, _⟩; exact absurd hc (List.not_mem_nil c)
  | cons c cs ih =>
    intro n hbad
    unfold parseUintLoop
    cases hd : digitOfChar c with
    | none => exact ⟨_, rfl⟩
    | some d =>
      simp only
      split_ifs with h1 h2 h3
      · exact ⟨_, rfl⟩
      · exact ⟨_, rfl⟩
      · exact ⟨_, rfl⟩
      · apply ih
        obtain ⟨x, hx, hxbad⟩ := hbad
        rcases List.mem_cons.mp hx with hxc | hxcs
        · subst hxc
          rcases digitOfChar_nonhex x hxbad with hnone | ⟨d1, hd1, hge⟩
          · rw [hnone] at hd; exact absurd hd (by simp)
          · rw [hd1] at hd
            have : d1 = d := Option.some.inj hd
            omega
        · exact ⟨x, hxcs, hxbad⟩

theorem ParseUint16_malformed (cs : List Char)
    (h : cs = [] ∨ ∃ c ∈ cs, isHexDigit c = false) : ∃ e, ParseUint16 cs = .error e := by
  cases cs with
  | nil => exact ⟨_, rfl⟩
  | cons c rest =>
    rcases h with h | h
    · exact absurd h (by simp)
    · exact parseUintLoop_nonhex (c :: rest) 0 h

theorem ParseInt16_body (c : Char) (rest : List Char) :
    (if c = '+' then rest else if c = '-' then rest else c :: rest) = dropSign (c :: rest) := by
  by_cases h1 : c = '+'
  · subst h1; rfl
  · by_cases h2 : c = '-'
    · subst h2; rfl
    · rw [if_neg h1, if_neg h2]
      unfold dropSign
      split
      · rename_i heq; exact absurd (List.cons.inj heq).1 h1
      · rename_i heq; exact absurd (List.cons.inj heq).1 h2
      · rfl

theorem ParseInt16_malformed (r : List Char)
    (h : dropSign r = [] ∨ ∃ c ∈ dropSign r, isHexDigit c = false) :
    ∃ e, ParseInt16 r = .error e := by
  cases r with
  | nil => exact ⟨_, rfl⟩
  | cons c rest =>
    obtain ⟨e, he⟩ := ParseUint16_malformed (dropSign (c :: rest)) h
    simp only [ParseInt16, ParseInt16_body, he]
    cases e with
    | syntaxErr => exact ⟨_, rfl⟩
    | rangeErr => exact ⟨_, rfl⟩

theorem stripHexPrefix_cases (cs : List Char) :
    stripHexPrefix cs = afterOptional0x cs ∨ cs = ['0', 'x'] := by
  unfold stripHexPrefix afterOptional0x
  split
  · left; rfl
  · rename_i hno
    split
    · rename_i rest
      cases rest with
      | nil => right; rfl
      | cons c rest => exact absurd rfl (hno c rest)
    · left; rfl

/-- C4 (as written, refuted): what remains of `-1a` (it has no `0x` prefix)
holds the character `-`, which is not a hexadecimal digit, and yet `HexToInt`
returns the value -26 rather than an error. -/
theorem C4_HexToInt_sign_counterexample :
    malformedHex "-1a" ∧ HexToInt "-1a" = .ok (-26) :=
  ⟨Or.inr ⟨'-', by decide, by decide⟩, rfl⟩

/-- C4 (amended): for every string `s`, if what remains of `s` after removing
an optional leading `0x` and then one optional leading sign (`+` or `-`) is
empty or contains a character that is not a hexadecimal digit, `HexToInt s`
returns an error and no value. -/
theorem C4_HexToInt_rejects_malformed (s : String) (h : malformedSignedHex s) :
    ∃ e, HexToInt s = .error e := by
  unfold HexToInt
  rcases stripHexPrefix_cases s.data with hs | hs
  · rw [hs]
    exact ParseInt16_malformed _ h
  · rw [hs]
    exact ⟨_, rfl⟩

/-- Witness of C4 on the failing inputs of `TestHexToInt`: the empty string
and `0xzz` are rejected. -/
theorem C4_HexToInt_rejects_malformed_witness :
    (∃ e, HexToInt "" = .error e) ∧ (∃ e, HexToInt "0xzz" = .error e) :=
  ⟨C4_HexToInt_rejects_malformed "" (Or.inl rfl),
   C4_HexToInt_rejects_malformed "0xzz" (Or.inr ⟨'z', by decide, by decide⟩)⟩

/-- ASCII lower-casing agrees with `Char.toLower` on hexadecimal digits. -/
theorem lowerChar_hex (f : Char → Char) (c : Char) (h : isHexDigit c = true) :
    lowerChar f c = c.toLower := by
  have hlt := isHexByte_lt c.toNat h
  unfold lowerChar Char.toLower
  rw [if_pos hlt]

theorem map_lowerChar_hex (f : Char → Char) (d : List Char)
    (h : ∀ c ∈ d, isHexDigit c = true) : d.map (lowerChar f) = d.map Char.toLower :=
  List.map_congr_left (fun c hc => lowerChar_hex f c (h c hc))

theorem trimPrefix0x_hex (d : List Char) (h : ∀ c ∈ d, isHexDigit c = true) :
    trimPrefix0x d = d := by
  unfold trimPrefix0x
  split
  · have := h 'x' (by simp)
    exact absurd this (by decide)
  · rfl

theorem AddressToHex_of_digits (f : Char → Char) (d : List Char) (hlen : d.length = 40)
    (h : ∀ c ∈ d, isHexDigit c = true) :
    AddressToHex f (String.mk d) =
      String.mk ('0' :: 'x' :: (List.replicate 24 '0' ++ d.map Char.toLower)) := by
  show String.mk ('0' :: 'x' :: sprintf064s ((trimPrefix0x d).map (lowerChar f))) = _
  rw [trimPrefix0x_hex d h, map_lowerChar_hex f d h]
  unfold sprintf064s
  rw [List.length_map, hlen]

/-- C5: for every address of exactly 40 hexadecimal digits `d`, given bare or
with a leading `0x`, `AddressToHex` returns `0x`, then 24 characters `0`,
then the 40 digits lower-cased; the result has length 66. -/
theorem C5_AddressToHex_canonical (f : Char → Char) (d : List Char) (hlen : d.length = 40)
    (h : ∀ c ∈ d, isHexDigit c = true) :
    (AddressToHex f (String.mk d) =
        "0x" ++ String.mk (List.replicate 24 '0') ++ String.mk (d.map Char.toLower)) ∧
    (AddressToHex f ("0x" ++ String.mk d) =
        "0x" ++ String.mk (List.replicate 24 '0') ++ String.mk (d.map Char.toLower)) ∧
    (AddressToHex f (String.mk d)).length = 66 ∧
    (AddressToHex f ("0x" ++ String.mk d)).length = 66 := by
  have h1 := AddressToHex_of_digits f d hlen h
  have h2 : AddressToHex f ("0x" ++ String.mk d) = AddressToHex f (String.mk d) := by
    show String.mk ('0' :: 'x' :: sprintf064s ((trimPrefix0x ('0' :: 'x' :: d)).map (lowerChar f)))
      = String.mk ('0' :: 'x' :: sprintf064s ((trimPrefix0x d).map (lowerChar f)))
    rw [trimPrefix0x_hex d h]
    rfl
  have hl : (String.mk ('0' :: 'x' :: (List.replicate 24 '0' ++ d.map Char.toLower))).length
      = 66 := by
    show ('0' :: 'x' :: (List.replicate 24 '0' ++ d.map Char.toLower)).length = 66
    simp [hlen]
  refine ⟨?_, ?_, ?_, ?_⟩
  · rw [h1]; rfl
  · rw [h2, h1]; rfl
  · rw [h1]; exact hl
  · rw [h2, h1]; exact hl

/-- Witness of C5 on the address of `TestAddressToHex`. -/
theorem C5_AddressToHex_canonical_witness :
    AddressToHex id "0x123456789abcdef123456789abcdef123456789a" =
      "0x000000000000000000000000123456789abcdef123456789abcdef123456789a" ∧
    (AddressToHex id "0x123456789abcdef123456789abcdef123456789a").length = 66 :=
  have h := C5_AddressToHex_canonical id "123456789abcdef123456789abcdef123456789a".data
    (by decide) (by decide)
  ⟨h.2.1, h.2.2.2⟩

/-! ## Claims on the subscription store -/

theorem mapHasKey_mapAssign_self (k : String) (v : Bool) (m : List (String × Bool)) :
    mapHasKey k (mapAssign k v m) = true := by
  induction m with
  | nil => simp [mapAssign, mapHasKey]
  | cons e rest ih =>
    obtain ⟨k1, v1⟩ := e
    unfold mapAssign
    by_cases h : k1 = k
    · simp [h, mapHasKey]
    · simp [h, mapHasKey, ih]

theorem mapHasKey_mapAssign_other (k b : String) (v : Bool) (m : List (String × Bool))
    (hb : b ≠ k) : mapHasKey b (mapAssign k v m) = mapHasKey b m := by
  induction m with
  | nil => simp [mapAssign, mapHasKey, Ne.symm hb]
  | cons e rest ih =>
    obtain ⟨k1, v1⟩ := e
    unfold mapAssign
    by_cases h : k1 = k
    · subst h
      simp [mapHasKey, Ne.symm hb]
    · simp only [h, if_false, mapHasKey, ih]

theorem Subscribe_isSubscribed (st : ParserState) (a : String) :
    IsSubscribed (Subscribe st a).2.repo a = true := by
  unfold Subscribe
  by_cases h : IsSubscribed st.repo a = true
  · simp [h]
  · simp only [Bool.not_eq_true] at h
    rw [if_pos (by simp [h])]
    exact mapHasKey_mapAssign_self a true st.repo.subscriptions

theorem Subscribe_frame (st : ParserState) (a b : String) (hb : b ≠ a) :
    IsSubscribed (Subscribe st a).2.repo b = IsSubscribed st.repo b := by
  unfold Subscribe
  by_cases h : IsSubscribed st.repo a = true
  · simp [h]
  · simp only [Bool.not_eq_true] at h
    rw [if_pos (by simp [h])]
    exact mapHasKey_mapAssign_other a b true st.repo.subscriptions hb

theorem Subscribe_of_subscribed (st : ParserState) (a : String)
    (h : IsSubscribed st.repo a = true) : Subscribe st a = (true, st) := by
  simp [Subscribe, h]

theorem subscribeAll_never_stored (addrs : List String) (b : String) :
    ∀ st : ParserState, IsSubscribed st.repo b = false → b ∉ addrs →
      IsSubscribed (subscribeAll addrs st).repo b = false := by
  induction addrs with
  | nil => intro st h _; exact h
  | cons a rest ih =>
    intro st h hb
    have hba : b ≠ a := fun e => hb (e ▸ List.mem_cons_self b rest)
    have hrest : b ∉ rest := fun hm => hb (List.mem_cons_of_mem a hm)
    exact ih _ (by rw [Subscribe_frame st a b hba]; exact h) hrest

/-- C9: for every store state and address `a`, `Subscribe a` returns true and
`a` is subscribed afterwards; a second `Subscribe a` returns true and leaves
the state exactly as the first call left it (same entries, same size); every
other address `b` keeps its `IsSubscribed` value; and an address that was
never passed to `Subscribe` on a fresh store is reported as not subscribed. -/
theorem C9_Subscribe_idempotent (st : ParserState) (a : String) :
    (Subscribe st a).1 = true ∧
    IsSubscribed (Subscribe st a).2.repo a = true ∧
    (Subscribe (Subscribe st a).2 a).1 = true ∧
    (Subscribe (Subscribe st a).2 a).2 = (Subscribe st a).2 ∧
    (Subscribe (Subscribe st a).2 a).2.repo.subscriptions.length
      = (Subscribe st a).2.repo.subscriptions.length ∧
    (∀ b, b ≠ a → IsSubscribed (Subscribe st a).2.repo b = IsSubscribed st.repo b) ∧
    (∀ addrs b, b ∉ addrs → IsSubscribed (subscribeAll addrs freshState).repo b = false) := by
  have h2 := Subscribe_of_subscribed _ a (Subscribe_isSubscribed st a)
  refine ⟨?_, Subscribe_isSubscribed st a, ?_, ?_, ?_, ?_, ?_⟩
  · unfold Subscribe; split <;> rfl
  · rw [h2]
  · rw [h2]
  · rw [h2]
  · exact fun b hb => Subscribe_frame st a b hb
  · exact fun addrs b hb => subscribeAll_never_stored addrs b freshState rfl hb

/-- Witness of C9 on the fresh store of `TestSubscribe`: after
`Subscribe "0x123"` the address is subscribed, the store has one entry, and
`0x456`, never stored, is not subscribed. -/
theorem C9_Subscribe_idempotent_witness :
    (Subscribe freshState "0x123").1 = true ∧
    IsSubscribed (Subscribe freshState "0x123").2.repo "0x123" = true ∧
    (Subscribe (Subscribe freshState "0x123").2 "0x123").2.repo.subscriptions.length = 1 ∧
    IsSubscribed (subscribeAll ["0x123"] freshState).repo "0x456" = false :=
  have h := C9_Subscribe_idempotent freshState "0x123"
  ⟨h.1, h.2.1, h.2.2.2.2.1.trans (by decide), h.2.2.2.2.2.2 ["0x123"] "0x456" (by decide)⟩

/-! ## Claims on GetTransactions and GetCurrentBlock -/

/-- C8: for every address that is not subscribed, `GetTransactions` returns
the empty list, issues no request (the requests sent are those sent before;
none when none had been sent) and leaves the subscription store as it was,
so the address is still not subscribed. -/
theorem C8_GetTransactions_unsubscribed (u : GoUnicode) (client : HTTPClient) (st : ParserState)
    (address : String) (h : IsSubscribed st.repo address = false) :
    (GetTransactions u client st address).1 = [] ∧
    (GetTransactions u client st address).2.sent = st.sent ∧
    (st.sent = [] → (GetTransactions u client st address).2.sent = []) ∧
    (GetTransactions u client st address).2.repo = st.repo ∧
    IsSubscribed (GetTransactions u client st address).2.repo address = false := by
  have hg : GetTransactions u client st address = ([], st) := by
    simp [GetTransactions, h]
  rw [hg]
  exact ⟨rfl, rfl, fun e => e, rfl, h⟩

/-- Witness of C8 on the "not subscribed" case of `TestGetTransactions`. -/
theorem C8_GetTransactions_unsubscribed_witness :
    (GetTransactions ⟨id, id⟩ (mockHTTPClient (transactionsResponses .empty .empty .empty))
        freshState "0x789").1 = [] ∧
    (GetTransactions ⟨id, id⟩ (mockHTTPClient (transactionsResponses .empty .empty .empty))
        freshState "0x789").2.sent = [] :=
  have h := C8_GetTransactions_unsubscribed ⟨id, id⟩
    (mockHTTPClient (transactionsResponses .empty .empty .empty)) freshState "0x789" (by decide)
  ⟨h.1, h.2.1⟩

theorem toInt64_idem (x : Int) : toInt64 (toInt64 x) = toInt64 x := by
  unfold toInt64
  omega

theorem ParseInt16_range (r : List Char) (n : Int) (h : ParseInt16 r = .ok n) :
    toInt64 n = n := by
  cases r with
  | nil => simp [ParseInt16] at h
  | cons c rest =>
    simp only [ParseInt16] at h
    split at h
    · exact absurd h (by simp)
    · exact absurd h (by simp)
    · split_ifs at h
      · rw [← Except.ok.inj h]; exact toInt64_idem _
      · rw [← Except.ok.inj h]; exact toInt64_idem _

theorem HexToInt_range (s : String) (n : Int) (h : HexToInt s = .ok n) : toInt64 n = n :=
  ParseInt16_range _ n h

theorem unmarshalRpcResponse_ne_empty (u : GoUnicode) (body : Body) (r : rpcResponse)
    (h : unmarshalRpcResponse u body = .ok r) : body ≠ Body.empty := by
  intro hb
  subst hb
  simp [unmarshalRpcResponse, unmarshal] at h

/-- The chain id step succeeds on an error-free envelope with a decodable
result, and issues exactly the `eth_chainId` request with id 1. -/
theorem getChainID_ok (u : GoUnicode) (client : HTTPClient) (st : ParserState)
    (bodyC : Body) (c : String) (cid : Int)
    (hC : client st.sent chainIDRequest = some bodyC)
    (hEnv : envelopeWithResult u bodyC c) (hc : HexToInt c = .ok cid) :
    getChainID u client st = (.ok cid, { st with sent := st.sent ++ [chainIDRequest] }) := by
  obtain ⟨r, hr, hErr, hRes⟩ := hEnv
  have hne := unmarshalRpcResponse_ne_empty u bodyC r hr
  simp only [chainIDRequest] at hC
  simp only [getChainID, sendRPCRequest, hC, hr, hErr, hRes, unmarshalString, setString, hc,
    chainIDRequest]

/-- When both steps decode: the chain id `c` to `cid` and the block number `b`
to `n`, `GetCurrentBlock` sends `eth_chainId` with id 1, then
`eth_blockNumber` with id `cid`, and returns `n`. -/
theorem GetCurrentBlock_of_decoded (u : GoUnicode) (client : HTTPClient) (st : ParserState)
    (bodyC bodyB : Body) (c b : String) (cid n : Int)
    (hC : client st.sent chainIDRequest = some bodyC)
    (hEnvC : envelopeWithResult u bodyC c) (hc : HexToInt c = .ok cid)
    (hB : client (st.sent ++ [chainIDRequest]) (blockNumRequest cid) = some bodyB)
    (hEnvB : envelopeWithResult u bodyB b) (hb : HexToInt b = .ok n) :
    GetCurrentBlock u client st =
      (n, { st with sent := st.sent ++ [chainIDRequest, blockNumRequest cid] }) := by
  obtain ⟨r, hr, hErr, hRes⟩ := hEnvB
  have hrange := HexToInt_range b n hb
  simp only [blockNumRequest] at hB
  simp only [GetCurrentBlock, getChainID_ok u client st bodyC c cid hC hEnvC hc, sendRPCRequest,
    hB, hr, hErr, hRes, unmarshalString, setString, hb, hrange, blockNumRequest,
    List.append_assoc, List.singleton_append]

/-- A valid hex string of value below `2^63` is decoded by `HexToInt` to that
value. -/
theorem HexToInt_of_valid (s : String) (hv : isValidHexString s = true)
    (hlt : hexStringValue s < 2 ^ 63) : HexToInt s = .ok (hexStringValue s : Int) := by
  simp only [isValidHexString, Bool.and_eq_true, Bool.not_eq_true', List.isEmpty_eq_false,
    List.all_eq_true] at hv
  obtain ⟨hne, hhex⟩ := hv
  unfold HexToInt hexStringValue
  rcases stripHexPrefix_cases s.data with hs | hs
  · rw [hs]
    exact ParseInt16_hex _ hne hhex hlt
  · rw [hs] at hne
    exact absurd rfl hne

/-- C6 (as written, refuted): `0x8000000000000000` is a valid hex string that
`HexToInt` does not decode. With it as the block-number result of an
error-free envelope (chain id `0x1`), `GetCurrentBlock` returns 0; with it as
the chain-id result, `GetCurrentBlock` returns 0 and never sends
`eth_blockNumber`. -/
theorem C6_GetCurrentBlock_overflow_counterexample :
    isValidHexString "0x8000000000000000" = true ∧
    envelopeWithResult ⟨id, id⟩ testChainIDResp "0x1" ∧
    envelopeWithResult ⟨id, id⟩ overflowResp "0x8000000000000000" ∧
    HexToInt "0x8000000000000000" = .error .rangeErr ∧
    GetCurrentBlock ⟨id, id⟩ (mockHTTPClient (currentBlockResponses testChainIDResp overflowResp))
      freshState = (0, { freshState with sent := [chainIDRequest, blockNumRequest 1] }) ∧
    GetCurrentBlock ⟨id, id⟩ (mockHTTPClient (currentBlockResponses overflowResp testBlockNumResp))
      freshState = (0, { freshState with sent := [chainIDRequest] }) :=
  ⟨by decide, ⟨_, rfl, rfl, rfl⟩, ⟨_, rfl, rfl, rfl⟩, rfl, rfl, rfl⟩

/-- C6 (amended): when the transport answers `eth_chainId` with an error-free
envelope whose result is a valid hex string `c` of value below `2^63`, and
answers the `eth_blockNumber` request carrying that value as id with an
error-free envelope whose result is a valid hex string `b` of value below
`2^63`, then `HexToInt` decodes both, and `GetCurrentBlock` sends
`eth_chainId` with id 1, then `eth_blockNumber` with id `HexToInt c`, and
returns `HexToInt b`. -/
theorem C6_GetCurrentBlock_valid_hex (u : GoUnicode) (client : HTTPClient) (st : ParserState)
    (bodyC bodyB : Body) (c b : String)
    (hC : client st.sent chainIDRequest = some bodyC)
    (hEnvC : envelopeWithResult u bodyC c)
    (hvc : isValidHexString c = true) (hcv : hexStringValue c < 2 ^ 63)
    (hB : client (st.sent ++ [chainIDRequest]) (blockNumRequest (hexStringValue c)) = some bodyB)
    (hEnvB : envelopeWithResult u bodyB b)
    (hvb : isValidHexString b = true) (hbv : hexStringValue b < 2 ^ 63) :
    HexToInt c = .ok (hexStringValue c : Int) ∧
    HexToInt b = .ok (hexStringValue b : Int) ∧
    GetCurrentBlock u client st =
      ((hexStringValue b : Int),
       { st with sent := st.sent ++ [chainIDRequest, blockNumRequest (hexStringValue c)] }) :=
  have hc := HexToInt_of_valid c hvc hcv
  have hb := HexToInt_of_valid b hvb hbv
  ⟨hc, hb, GetCurrentBlock_of_decoded u client st bodyC bodyB c b _ _ hC hEnvC hc hB hEnvB hb⟩

/-- Witness of C6 on the first case of `TestGetCurrentBlock`: chain id result
`0x1`, block number result `0x100`, block 256, request id 1. -/
theorem C6_GetCurrentBlock_valid_hex_witness :
    GetCurrentBlock ⟨id, id⟩ (mockHTTPClient (currentBlockResponses testChainIDResp testBlockNumResp))
      freshState = (256, { freshState with sent := [chainIDRequest, blockNumRequest 1] }) :=
  (C6_GetCurrentBlock_valid_hex ⟨id, id⟩
    (mockHTTPClient (currentBlockResponses testChainIDResp testBlockNumResp)) freshState
    testChainIDResp testBlockNumResp "0x1" "0x100" rfl ⟨_, rfl, rfl, rfl⟩ (by decide) (by decide)
    rfl ⟨_, rfl, rfl, rfl⟩ (by decide) (by decide)).2.2

theorem GetCurrentBlock_of_chainID_error (u : GoUnicode) (client : HTTPClient) (st : ParserState)
    (e : QueryError) (h : (getChainID u client st).1 = .error e) :
    (GetCurrentBlock u client st).1 = 0 := by
  unfold GetCurrentBlock
  generalize getChainID u client st = p at h
  obtain ⟨res, st1⟩ := p
  simp only at h
  subst h
  rfl

/-- A failed response to `eth_chainId` makes `getChainID` return an error. -/
theorem getChainID_failed (u : GoUnicode) (client : HTTPClient) (st : ParserState)
    (h : responseFailed u (client st.sent chainIDRequest)) :
    ∃ e, (getChainID u client st).1 = .error e := by
  simp only [chainIDRequest] at h
  rcases h with h | h | h | ⟨body, e, h, he⟩ | ⟨body, r, h, hr, hE⟩ | ⟨body, r, h, hr, hD⟩
  · simp only [getChainID, sendRPCRequest, h]; exact ⟨_, rfl⟩
  · simp only [getChainID, sendRPCRequest, h, unmarshalRpcResponse, unmarshal]; exact ⟨_, rfl⟩
  · simp only [getChainID, sendRPCRequest, h, unmarshalRpcResponse, unmarshal]; exact ⟨_, rfl⟩
  · simp only [getChainID, sendRPCRequest, h, he]; exact ⟨_, rfl⟩
  · simp only [getChainID, sendRPCRequest, h, hr]
    cases hErr : r.Error with
    | none => exact absurd hErr hE
    | some err => exact ⟨_, rfl⟩
  · simp only [getChainID, sendRPCRequest, h, hr]
    cases hErr : r.Error with
    | some err => exact ⟨_, rfl⟩
    | none =>
      cases body with
      | empty => exact ⟨_, rfl⟩
      | invalid =>
        simp only [unmarshalRpcResponse, unmarshal] at hr
        exact absurd hr (by simp)
      | json v =>
        simp only
        cases hs : unmarshalString r.Result with
        | error e1 => exact ⟨_, rfl⟩
        | ok hex =>
          simp only
          cases hh : HexToInt hex with
          | error e2 => exact ⟨_, rfl⟩
          | ok n => exact absurd ⟨hex, n, hs, hh⟩ hD

/-- A failed response to `eth_blockNumber` makes `GetCurrentBlock` return 0. -/
theorem GetCurrentBlock_of_blockNum_failed (u : GoUnicode) (client : HTTPClient)
    (st st1 : ParserState) (cid : Int) (hg : getChainID u client st = (.ok cid, st1))
    (h : responseFailed u (client st1.sent (blockNumRequest cid))) :
    (GetCurrentBlock u client st).1 = 0 := by
  simp only [blockNumRequest] at h
  simp only [GetCurrentBlock, hg, sendRPCRequest]
  rcases h with h | h | h | ⟨body, e, h, he⟩ | ⟨body, r, h, hr, hE⟩ | ⟨body, r, h, hr, hD⟩
  · simp only [h]
  · simp only [h, unmarshalRpcResponse, unmarshal]
  · simp only [h, unmarshalRpcResponse, unmarshal]
  · simp only [h, he]
  · simp only [h, hr]
    cases hErr : r.Error with
    | none => exact absurd hErr hE
    | some err => rfl
  · simp only [h, hr]
    cases hErr : r.Error with
    | some err => rfl
    | none =>
      simp only
      cases hs : unmarshalString r.Result with
      | error e1 => rfl
      | ok hex =>
        simp only
        cases hh : HexToInt hex with
        | error e2 => rfl
        | ok n => exact absurd ⟨hex, n, hs, hh⟩ hD

/-- C7: `GetCurrentBlock` returns 0 whenever one of its two steps fails: the
transport returns an error, the body is empty or not valid JSON (or does not
decode as an envelope), the envelope carries a non-null error, or the result
is not a decodable hex string; this holds for the chain-id step whatever the
transport would answer to `eth_blockNumber`. -/
theorem C7_GetCurrentBlock_zero_on_failure (u : GoUnicode) (client : HTTPClient)
    (st : ParserState) (h : currentBlockStepFailed u client st) :
    (GetCurrentBlock u client st).1 = 0 := by
  rcases h with h | ⟨bodyC, c, cid, hC, hEnv, hc, hB⟩
  · obtain ⟨e, he⟩ := getChainID_failed u client st h
    exact GetCurrentBlock_of_chainID_error u client st e he
  · exact GetCurrentBlock_of_blockNum_failed u client st _ cid
      (getChainID_ok u client st bodyC c cid hC hEnv hc) hB

/-- Witness of C7 on the second case of `TestGetCurrentBlock`: the chain-id
response carries an error object and the block is 0, here with a valid
block-number response on offer. -/
theorem C7_GetCurrentBlock_zero_on_failure_witness :
    (GetCurrentBlock ⟨id, id⟩ (mockHTTPClient (currentBlockResponses testErrorResp testBlockNumResp))
      freshState).1 = 0 :=
  C7_GetCurrentBlock_zero_on_failure ⟨id, id⟩
    (mockHTTPClient (currentBlockResponses testErrorResp testBlockNumResp)) freshState
    (Or.inl (Or.inr (Or.inr (Or.inr (Or.inr (Or.inl
      ⟨testErrorResp, _, rfl, rfl, by simp⟩))))))

/-! ## Claims on which the code departs from its contract -/

/-- C1 (the code at the input of `TestGetTransactions`): with `0x123`
subscribed, one log entry and the transaction envelope whose result carries
hash `0x1`, from `0x123`, to `0x456`, `GetTransactions` returns one
Transaction, but it is the zero Transaction: `getTransaction` decodes the
whole envelope, none of whose members `jsonrpc`, `id`, `result` is a field of
`Transaction`, so Hash and From are empty and To is nil. -/
theorem C1_GetTransactions_envelope_not_unwrapped (u : GoUnicode) :
    (GetTransactions u
        (mockHTTPClient (transactionsResponses testChainIDResp testLogsResp testTxResp))
        (Subscribe freshState "0x123").2 "0x123").1 = [Transaction.zero] ∧
    Transaction.zero.Hash = "" ∧ Transaction.zero.From = "" ∧ Transaction.zero.To = none :=
  ⟨rfl, rfl, rfl, rfl⟩

/-- The filter of `GetTransactions` constrains topic 0 and topic 1 only: a
log with three topics matches exactly when topic 0 is `erc20Transfer` and
topic 1 is the padded address, whatever topic 2 is. -/
theorem logsParams_matches_iff (u : GoUnicode) (a t0 t1 t2 : String) :
    topicsMatch (filterTopics (logsParams u a)) [t0, t1, t2] = true ↔
      t0 = erc20Transfer ∧ t1 = AddressToHex u.lower a := by
  simp only [logsParams, filterTopics, topicsMatch, topicSpecMatches, Bool.and_true,
    Bool.and_eq_true, beq_iff_eq, List.contains_iff_exists_mem_beq, List.mem_cons,
    List.mem_singleton, List.not_mem_nil, or_false, or_self, exists_eq_left]
  constructor
  · rintro ⟨h0, h1⟩
    exact ⟨h0.symm, h1⟩
  · rintro ⟨h0, h1⟩
    exact ⟨h0.symm, h1⟩

/-- C2 (the code at an inbound transfer): for address `0x123`, the request
that `GetTransactions` sends with `eth_getLogs` carries the filter
`logsParams`, and under the topic rule that filter does not select the
Transfer log whose from topic is the padded `0x456` and whose to topic is the
padded `0x123`; the outbound log with the two topics exchanged is selected. -/
theorem C2_filter_misses_inbound_transfer (u : GoUnicode) :
    ((GetTransactions u
        (mockHTTPClient (transactionsResponses testChainIDResp testLogsResp testTxResp))
        (Subscribe freshState "0x123").2 "0x123").2.sent.map (fun r => (r.Method, r.Params)))
      = [(methodChainID, []), (methodLogs, logsParams u "0x123"),
         (methodTxByHash, [Param.str "0x1"])] ∧
    topicsMatch (filterTopics (logsParams u "0x123"))
      [erc20Transfer, AddressToHex u.lower "0x456", AddressToHex u.lower "0x123"] = false ∧
    topicsMatch (filterTopics (logsParams u "0x123"))
      [erc20Transfer, AddressToHex u.lower "0x123", AddressToHex u.lower "0x456"] = true :=
  ⟨rfl, rfl, rfl⟩

/-- C10 (the code at a failed transaction fetch): with `0x123` subscribed, one
log entry and a transaction response that is an envelope carrying the error
object of code -32000, `GetTransactions` does not skip the entry: it returns
one (zero) Transaction, because `getTransaction` never looks at the error
member. -/
theorem C10_GetTransactions_ignores_rpc_error (u : GoUnicode) :
    (∃ r, unmarshalRpcResponse u testErrorResp = .ok r ∧ r.Error ≠ none) ∧
    (GetTransactions u
        (mockHTTPClient (transactionsResponses testChainIDResp testLogsResp testErrorResp))
        (Subscribe freshState "0x123").2 "0x123").1 = [Transaction.zero] :=
  ⟨⟨_, rfl, by simp⟩, rfl⟩

/-! ## Claims on the per-log fetch and on the Transfer topic -/

/-- A repeated `result` member: the second array truncates the slice to one
element, the third extends it again over the backing store, so its second
entry is decoded into the entry the first array left there and keeps the
address `B1` and the transaction hash `0xb`. -/
theorem unmarshalLogsResponse_repeated_result (u : GoUnicode) :
    unmarshalLogsResponse u repeatedResultResp =
      .ok { Logs := [{ logEntry.zero with Address := "A" },
        { Address := "B1", BlockHash := "", BlockNumber := "E", TransactionHash := "0xb" }] } :=
  rfl

theorem fetchOutcomes_length (u : GoUnicode) (client : HTTPClient) (id : Int)
    (logs : List logEntry) : ∀ sent, (fetchOutcomes u client id logs sent).length = logs.length := by
  induction logs with
  | nil => intro sent; rfl
  | cons entry rest ih =>
    intro sent
    simp only [fetchOutcomes, List.length_cons, ih]

/-- The loop of `GetTransactions` appends the successful outcomes, in log
order, to what it has collected, and issues one request per entry. -/
theorem collectTransactions_eq (u : GoUnicode) (client : HTTPClient) (id : Int)
    (logs : List logEntry) : ∀ (st : ParserState) (acc : List Transaction),
    collectTransactions u client id logs st acc =
      (acc ++ (fetchOutcomes u client id logs st.sent).filterMap (fun o => o),
       { st with sent := st.sent ++ logs.map (fun e => txByHashRequest id e.TransactionHash) }) := by
  induction logs with
  | nil =>
    intro st acc
    simp [collectTransactions, fetchOutcomes]
  | cons entry rest ih =>
    intro st acc
    simp only [collectTransactions, getTransaction, sendRPCRequest, fetchOutcomes,
      List.map_cons]
    have hreq : rpcRequest.mk rpcVersion methodTxByHash [Param.str entry.TransactionHash] id
        = txByHashRequest id entry.TransactionHash := rfl
    rw [hreq]
    cases hresp : client st.sent (txByHashRequest id entry.TransactionHash) with
    | none =>
      simp only [fetchOutcome, List.filterMap_cons_none, ih]
      simp
    | some body =>
      cases hdec : unmarshalTransaction u body with
      | error e =>
        simp only [fetchOutcome, hdec, List.filterMap_cons_none, ih]
        simp
      | ok tx =>
        simp only [fetchOutcome, hdec, ih]
        simp

/-- C11: for a subscribed address, once the chain id is resolved as `cid` and
`eth_getLogs` returned the entries `logs`, `GetTransactions` issues after the
two first requests one `eth_getTransactionByHash` request per log entry, in
log order, each with the transaction hash of the entry as sole parameter and
`cid` as request id; the returned list holds the Transaction of each entry
whose fetch succeeded (the transport returned a body that decodes), in log
order, and omits the failed ones without stopping; its length is the number
of successful fetches and is at most the number of logs. -/
theorem C11_GetTransactions_per_log (u : GoUnicode) (client : HTTPClient) (st : ParserState)
    (address : String) (bodyC bodyL : Body) (c : String) (cid : Int) (logs : List logEntry)
    (hsub : IsSubscribed st.repo address = true)
    (hC : client st.sent chainIDRequest = some bodyC)
    (hEnv : envelopeWithResult u bodyC c) (hc : HexToInt c = .ok cid)
    (hL : client (st.sent ++ [chainIDRequest]) (logsRequest u cid address) = some bodyL)
    (hlogs : unmarshalLogsResponse u bodyL = .ok { Logs := logs }) :
    (GetTransactions u client st address).2.sent =
      st.sent ++ [chainIDRequest, logsRequest u cid address] ++
        logs.map (fun e => txByHashRequest cid e.TransactionHash) ∧
    (GetTransactions u client st address).1 =
      (fetchOutcomes u client cid logs
        (st.sent ++ [chainIDRequest, logsRequest u cid address])).filterMap (fun o => o) ∧
    (fetchOutcomes u client cid logs
        (st.sent ++ [chainIDRequest, logsRequest u cid address])).length = logs.length ∧
    (GetTransactions u client st address).1.length =
      (fetchOutcomes u client cid logs
        (st.sent ++ [chainIDRequest, logsRequest u cid address])).countP (fun o => o.isSome) ∧
    (GetTransactions u client st address).1.length ≤ logs.length := by
  have hg : GetTransactions u client st address =
      ((fetchOutcomes u client cid logs
          (st.sent ++ [chainIDRequest, logsRequest u cid address])).filterMap (fun o => o),
       { st with sent := st.sent ++ [chainIDRequest, logsRequest u cid address] ++
          logs.map (fun e => txByHashRequest cid e.TransactionHash) }) := by
    simp only [logsRequest] at hL
    simp only [GetTransactions, hsub, Bool.not_true, Bool.false_eq_true, if_false,
      getChainID_ok u client st bodyC c cid hC hEnv hc, fetchLogs, sendRPCRequest, hL, hlogs,
      collectTransactions_eq, List.nil_append, logsRequest, List.append_assoc,
      List.singleton_append]
  have hlen := fetchOutcomes_length u client cid logs
    (st.sent ++ [chainIDRequest, logsRequest u cid address])
  rw [hg]
  refine ⟨rfl, rfl, hlen, ?_, ?_⟩
  · show (List.filterMap (fun o => o) _).length = _
    generalize fetchOutcomes u client cid logs _ = os
    induction os with
    | nil => rfl
    | cons o os ih =>
      cases o with
      | none => simpa using ih
      | some tx => simpa using ih
  · show (List.filterMap (fun o => o) _).length ≤ _
    rw [← hlen]
    exact List.length_filterMap_le _ _

/-- Witness of C11 with two log entries, of hashes `0x2` and `0x1`, where the
fetch for `0x2` gets an undecodable body: two transaction requests are
issued, in log order, and the list holds the one Transaction of `0x1`. -/
theorem C11_GetTransactions_per_log_witness :
    (GetTransactions ⟨id, id⟩ (selectiveClient twoLogsResp)
        (Subscribe freshState "0x123").2 "0x123").2.sent =
      [chainIDRequest, logsRequest ⟨id, id⟩ 1 "0x123", txByHashRequest 1 "0x2",
        txByHashRequest 1 "0x1"] ∧
    (GetTransactions ⟨id, id⟩ (selectiveClient twoLogsResp)
        (Subscribe freshState "0x123").2 "0x123").1.length = 1 :=
  have h := C11_GetTransactions_per_log ⟨id, id⟩ (selectiveClient twoLogsResp)
    (Subscribe freshState "0x123").2 "0x123" testChainIDResp twoLogsResp "0x1" 1
    [{ logEntry.zero with TransactionHash := "0x2" }, { logEntry.zero with TransactionHash := "0x1" }]
    rfl rfl ⟨_, rfl, rfl, rfl⟩ rfl rfl rfl
  ⟨h.1, h.2.2.2.1.trans rfl⟩

/-- C12 (as written, refuted): the constant `erc20Transfer` does not have
total length 67, and it does not have 65 characters after the `0x` prefix. -/
theorem C12_erc20Transfer_not_overlong :
    ¬ (erc20Transfer.length = 67) ∧ ¬ ((erc20Transfer.data.drop 2).length = 65) := by
  constructor <;> decide

/-- C12 (amended): the constant `erc20Transfer`, used as `topics[0]` of the
log filter for every address, is the string
0xddf252ad1be2c89b69c2b068fc378daa952ba7f163c4a11628f55a4df523b3ef; it has
the length of a canonical 32-byte topic: the prefix `0x` followed by 64
hexadecimal digits, total length 66. -/
theorem C12_erc20Transfer_canonical_length :
    erc20Transfer = "0xddf252ad1be2c89b69c2b068fc378daa952ba7f163c4a11628f55a4df523b3ef" ∧
    (∀ (u : GoUnicode) (address : String),
      (filterTopics (logsParams u address)).head? = some (TopicSpec.one erc20Transfer)) ∧
    erc20Transfer.data.take 2 = ['0', 'x'] ∧
    (∀ c ∈ erc20Transfer.data.drop 2, isHexDigit c = true) ∧
    (erc20Transfer.data.drop 2).length = canonicalTopicDigits ∧
    erc20Transfer.length = 66 := by
  refine ⟨rfl, fun _ _ => rfl, by decide, by decide, by decide, by decide⟩

end EthParser
